import Mathlib

/-!
Verification of the product-space analytics engine (`src/lib.rs`, `src/rca.rs`).

Scalars are modelled by `EF`: either `nan` or an exact rational. On the
non-negative activity inputs this library works with, every f64 value the
RCA pipeline can produce is either NaN (from 0/0 divisions) or a finite
real, so `EF` covers the reachable value domain; division by zero is
modelled as `nan`. Matrices are total functions `Fin m → Fin n → EF`,
mirroring nalgebra's dense `DMatrix<f64>` under the shape discipline the
library assumes (a separate list-based embedding with explicit shape
checks models the dimension-mismatch panics of nalgebra's element-wise
operations).
-/

/-- Rational addition in a form the kernel can evaluate (the built-in
`Rat.add` is irreducible); proved equal to `+` below. -/
def qadd (a b : ℚ) : ℚ := mkRat (a.num * b.den + b.num * a.den) (a.den * b.den)

/-- Rational multiplication in a kernel-evaluable form. -/
def qmul (a b : ℚ) : ℚ := mkRat (a.num * b.num) (a.den * b.den)

/-- Rational division in a kernel-evaluable form (`q / 0 = 0`, matching
Mathlib's convention; the zero-divisor case is handled at the `EF` level
before this is reached). -/
def qdiv (a b : ℚ) : ℚ := Rat.divInt (a.num * b.den) (a.den * b.num)

theorem qadd_eq (a b : ℚ) : qadd a b = a + b := (Rat.add_def' a b).symm

theorem qmul_eq (a b : ℚ) : qmul a b = a * b := by
  rw [qmul, Rat.mul_def, Rat.normalize_eq_mkRat]

theorem qdiv_eq (a b : ℚ) : qdiv a b = a / b := by
  rw [qdiv]
  by_cases hb : b = 0
  · subst hb
    simp
  · have hbn : b.num ≠ 0 := Rat.num_ne_zero.mpr hb
    have had : (a.den : ℤ) ≠ 0 := Int.ofNat_ne_zero.mpr a.den_nz
    rw [Rat.div_def, Rat.inv_def, ← Rat.divInt_self a, Rat.divInt_mul_divInt _ _ had hbn]
    rw [Rat.divInt_self]

/-- Extended scalar: NaN or an exact rational, modelling the f64 values
reachable in this pipeline. -/
inductive EF where
  | nan : EF
  | fin : ℚ → EF
deriving DecidableEq

namespace EF

/-- f64 addition on the reachable domain: NaN propagates. -/
def add : EF → EF → EF
  | nan, _ => nan
  | _, nan => nan
  | fin a, fin b => fin (qadd a b)

/-- f64 multiplication on the reachable domain: NaN propagates. -/
def mul : EF → EF → EF
  | nan, _ => nan
  | _, nan => nan
  | fin a, fin b => fin (qmul a b)

/-- f64 division on the reachable domain: NaN propagates, and division by
zero yields `nan` (on the non-negative inputs of this library a zero
divisor always comes with a zero dividend, i.e. 0/0 = NaN). -/
def div : EF → EF → EF
  | nan, _ => nan
  | _, nan => nan
  | fin a, fin b => if b = 0 then nan else fin (qdiv a b)

/-- The f64 comparison `x >= cutoff` used by `fair_share`: any comparison
with NaN is false. -/
def geQ : EF → ℚ → Bool
  | nan, _ => false
  | fin a, cutoff => decide (cutoff ≤ a)

/-- Test `f64::is_nan`. -/
def isNan : EF → Bool
  | nan => true
  | fin _ => false

theorem addAssoc (a b c : EF) : add (add a b) c = add a (add b c) := by
  cases a <;> cases b <;> cases c <;> simp [add, qadd_eq, add_assoc]

theorem addFinZero (a : EF) : add a (fin 0) = a := by
  cases a <;> simp [add, qadd_eq]

end EF

/-- A dense matrix (nalgebra `DMatrix<f64>`) of known shape. -/
abbrev Mat (m n : ℕ) : Type := Fin m → Fin n → EF

/-- Enumeration of `Fin n`, by structural recursion so that it evaluates
by kernel reduction. -/
def finList : (n : ℕ) → List (Fin n)
  | 0 => []
  | n + 1 => ⟨0, Nat.succ_pos n⟩ :: (finList n).map Fin.succ

theorem mem_finList : ∀ {n : ℕ} (i : Fin n), i ∈ finList n
  | n + 1, i => by
    induction i using Fin.cases with
    | zero => exact List.mem_cons_self _ _
    | succ j => exact List.mem_cons_of_mem _ (List.mem_map_of_mem Fin.succ (mem_finList j))

/-- Cell-by-cell equality test that evaluates by kernel reduction. -/
instance (priority := 2000) matDecEq {m n : ℕ} : DecidableEq (Mat m n) :=
  fun A B =>
    decidable_of_iff
      (((finList m).all fun i =>
        (finList n).all fun j => A i j == B i j) = true)
      (by
        simp only [List.all_eq_true, beq_iff_eq]
        constructor
        · intro h
          funext i j
          exact h i (mem_finList i) j (mem_finList j)
        · intro h i _ j _
          rw [h])

/-- Row totals `b` (`a.column_sum()` in nalgebra: sum of all columns in a
row). -/
def rowSum {m n : ℕ} (A : Mat m n) (i : Fin m) : EF :=
  ((finList n).map fun j => A i j).foldr EF.add (EF.fin 0)

/-- Column totals `c` (`a.row_sum()` in nalgebra: sum of all rows in a
column). -/
def colSum {m n : ℕ} (A : Mat m n) (j : Fin n) : EF :=
  ((finList m).map fun i => A i j).foldr EF.add (EF.fin 0)

/-- Grand total `d` (`a.sum()`). -/
def total {m n : ℕ} (A : Mat m n) : EF :=
  ((finList m).map fun i => rowSum A i).foldr EF.add (EF.fin 0)

/-- Function `rca` from `src/rca.rs`: `RCA[i,j] = (A[i,j] / b[i]) / (c[j] / d)`,
computed in the source's staging: `c_d` first, then the `a/b` sweep, then
the `(a/b)/(c/d)` sweep. -/
def rca {m n : ℕ} (A : Mat m n) : Mat m n :=
  let b := fun i => rowSum A i
  let c := fun j => colSum A j
  let d := total A
  let c_d := fun j => (c j).div d
  let a_b : Mat m n := fun i j => (A i j).div (b i)
  let a_b_c_d : Mat m n := fun i j => (a_b i j).div (c_d j)
  a_b_c_d

/-- Function `apply_rca` from `src/rca.rs`: the in-place variant. `b`, `c` and `d`
are all computed from the matrix before the two mutation sweeps run, so
the sweeps read only precomputed data. -/
def apply_rca {m n : ℕ} (A : Mat m n) : Mat m n :=
  let b := fun i => rowSum A i
  let c := fun j => colSum A j
  let d := total A
  let c_d := fun j => (c j).div d
  let a_b : Mat m n := fun i j => (A i j).div (b i)
  let a_b_c_d : Mat m n := fun i j => (a_b i j).div (c_d j)
  a_b_c_d

/-- Function `fair_share` from `src/rca.rs`: binarize against the cutoff
(default 1.0), `out[i,j] = 1.0 if in[i,j] >= cutoff else 0.0`. -/
def fair_share {m n : ℕ} (A : Mat m n) (cutoff : Option ℚ) : Mat m n :=
  let cut := cutoff.getD 1
  fun i j => if EF.geQ (A i j) cut then EF.fin 1 else EF.fin 0

/-- Function `apply_fair_share` from `src/rca.rs`: in-place binarization. -/
def apply_fair_share {m n : ℕ} (A : Mat m n) (cutoff : Option ℚ) : Mat m n :=
  let cut := cutoff.getD 1
  fun i j => if EF.geQ (A i j) cut then EF.fin 1 else EF.fin 0

/-- Element-wise product (`component_mul` / `component_mul_assign`). -/
def compMul {m n : ℕ} (A B : Mat m n) : Mat m n :=
  fun i j => (A i j).mul (B i j)

/-- Element-wise sum (`z += rca_matrix`). -/
def matAdd {m n : ℕ} (A B : Mat m n) : Mat m n :=
  fun i j => (A i j).add (B i j)

/-- Function `apply_fair_share_into` from `src/rca.rs`: binarizes `m1` in place
against the cutoff, then multiplies it element-wise into the accumulator.
Returns the pair (binarized `m1`, updated accumulator). -/
def apply_fair_share_into {m n : ℕ} (m1 acc : Mat m n) (cutoff : Option ℚ) :
    Mat m n × Mat m n :=
  let fs := apply_fair_share m1 cutoff
  (fs, compMul acc fs)

/-- The matrix of the repository's `test_basic_rca` test:
`DMatrix::from_vec(2,3,vec![1,2,3,4,5,6])` is column-major, so the rows
are `[1,3,5]` and `[2,4,6]`. -/
def exA : Mat 2 3 :=
  ![![EF.fin 1, EF.fin 3, EF.fin 5], ![EF.fin 2, EF.fin 4, EF.fin 6]]

/-- Expected RCA of `exA` (rows `[7/9, 1, 35/33]` and `[7/6, 1, 21/22]`). -/
def exRca : Mat 2 3 :=
  ![![EF.fin (mkRat 7 9), EF.fin 1, EF.fin (mkRat 35 33)],
    ![EF.fin (mkRat 7 6), EF.fin 1, EF.fin (mkRat 21 22)]]

/-- NaN→0 cleanup applied to proximity matrices in `ProductSpace::new`
(`prox.apply(|x| if x.is_nan() { 0.0 } else { x })`). -/
def cleanNaN {m n : ℕ} (A : Mat m n) : Mat m n :=
  fun i j => match A i j with
    | EF.nan => EF.fin 0
    | v => v

/-- Modelled from the spec: the proximity derivation (`proximity.rs` is
not part of the sources), per §4.5. For columns `p`, `q` of a binarized
matrix, `proximity[p,q] = min(P(q present | p present), P(p present | q
present))`, computed from column co-occurrence and column totals; a column
with zero presences makes the conditional probabilities undefined (NaN). -/
def proximity {m n : ℕ} (A : Mat m n) : Mat n n :=
  fun p q =>
    let sp := ((finList m).filter fun i => A i p == EF.fin 1).length
    let sq := ((finList m).filter fun i => A i q == EF.fin 1).length
    let spq := ((finList m).filter fun i =>
      (A i p == EF.fin 1) && (A i q == EF.fin 1)).length
    if sp = 0 ∨ sq = 0 then EF.nan
    else EF.fin (min (qdiv spq sp) (qdiv spq sq))

/-- Modelled from the spec: the density derivation (`density.rs` is not
part of the sources), per §4.6:
`density[i,j] = (sum_k proximity[j,k] * rca_cell[i,k]) / (sum_k proximity[j,k])`. -/
def density {m n : ℕ} (R : Mat m n) (P : Mat n n) : Mat m n :=
  fun i j =>
    (((finList n).map fun k => (P j k).mul (R i k)).foldr EF.add (EF.fin 0)).div
    (((finList n).map fun k => P j k).foldr EF.add (EF.fin 0))

/-- Modelled from the spec: `smooth::avg` (`smooth.rs` is not part of the
sources), the average-mode aggregation of §4.4 applied to proximity
matrices: sum the present matrices and divide every cell by the requested
year-count. -/
def smooth_avg {n : ℕ} (ms : List (Mat n n)) (len : ℕ) : Mat n n :=
  fun p q =>
    ((ms.map fun A => A p q).foldr EF.add (EF.fin 0)).div (EF.fin len)

/-- Structure `ProductSpace` (`src/lib.rs`): the year-keyed per-year matrix maps.
The index maps enter the model only through the dimensions `m` (number of
countries, `country_idx.len()`) and `n` (number of products,
`product_idx.len()`). -/
structure ProductSpace (m n : ℕ) where
  rcasByYear : ℕ → Option (Mat m n)
  rcasCutoffByYear : ℕ → Option (Mat m n)
  proximitiesByYear : ℕ → Option (Mat n n)

/-- Constructor `ProductSpace::new` (`src/lib.rs`): eagerly derives, for every year of
the input map, the raw RCA matrix, the cutoff-binarized RCA matrix, and
the NaN-cleaned proximity matrix of the binarized RCA. No shape validation
is performed. -/
def ProductSpace.new {m n : ℕ} (mcps : ℕ → Option (Mat m n))
    (rca_cutoff : Option ℚ) : ProductSpace m n where
  rcasByYear := fun y => (mcps y).map fun A => rca A
  rcasCutoffByYear := fun y => (mcps y).map fun A => apply_fair_share (rca A) rca_cutoff
  proximitiesByYear := fun y => (mcps y).map fun A =>
    cleanNaN (proximity (apply_fair_share (rca A) rca_cutoff))

/-- The all-ones accumulator `DMatrix::from_element(country_idx.len(),
product_idx.len(), 1.0)`. -/
def onesMat (m n : ℕ) : Mat m n := fun _ _ => EF.fin 1

/-- One fold step of the multi-year `rca_matrix` aggregation: fused
fair-share-into when a cutoff is given, element-wise sum otherwise. -/
def rcaStep {m n : ℕ} (cutoff : Option ℚ) (z A : Mat m n) : Mat m n :=
  if cutoff.isSome then (apply_fair_share_into A z cutoff).2 else matAdd z A

/-- Query `ProductSpace::rca_matrix` (`src/lib.rs`). Multi-year: fold the raw
RCA matrices of the present years (missing years silently skipped) over
the all-ones accumulator, then divide by the requested year-count when no
cutoff is given. Single year: clone the year's RCA, binarizing it if a
cutoff is given. Empty request: no result. -/
def rca_matrix {m n : ℕ} (ps : ProductSpace m n) (years : List ℕ)
    (cutoff : Option ℚ) : Option (Mat m n) :=
  if 1 < years.length then
    let res := (years.filterMap ps.rcasByYear).foldl (rcaStep cutoff) (onesMat m n)
    if cutoff.isSome then some res
    else some (fun i j => (res i j).div (EF.fin years.length))
  else if years.length = 1 then
    (years.head?.bind ps.rcasByYear).map fun A =>
      if cutoff.isSome then apply_fair_share A cutoff else A
  else none

/-- Query `ProductSpace::rca_cutoff_matrix` (`src/lib.rs`). Multi-year: fold
with plain `component_mul` over the all-ones accumulator, reading from
`rcas_by_year` (the raw RCA map). Single year: clone from
`rcas_cutoff_by_year`. Empty request: no result. -/
def rca_cutoff_matrix {m n : ℕ} (ps : ProductSpace m n) (years : List ℕ) :
    Option (Mat m n) :=
  if 1 < years.length then
    some ((years.filterMap ps.rcasByYear).foldl (fun z R => compMul z R) (onesMat m n))
  else if years.length = 1 then
    years.head?.bind ps.rcasCutoffByYear
  else none

/-- Query `ProductSpace::proximity_matrix` (`src/lib.rs`). Multi-year: average
the present years' stored proximity matrices via `smooth::avg` with the
requested year-count. Single year: clone. Empty request: no result. -/
def proximity_matrix {m n : ℕ} (ps : ProductSpace m n) (years : List ℕ) :
    Option (Mat n n) :=
  if 1 < years.length then
    some (smooth_avg (years.filterMap ps.proximitiesByYear) years.length)
  else if years.length = 1 then
    years.head?.bind ps.proximitiesByYear
  else none

/-- Query `ProductSpace::density_matrix` (`src/lib.rs`): select an RCA matrix
and a proximity matrix for the same years; if both succeed, derive the
density, otherwise no result. -/
def density_matrix {m n : ℕ} (ps : ProductSpace m n) (years : List ℕ)
    (rca_cutoff : Option ℚ) : Option (Mat m n) :=
  match rca_matrix ps years rca_cutoff, proximity_matrix ps years with
  | some R, some P => some (density R P)
  | _, _ => none

/-- Cell values of a list of matrices at one position, summed from 0. -/
def sumCells {m n : ℕ} (ms : List (Mat m n)) (i : Fin m) (j : Fin n) : EF :=
  (ms.map fun A => A i j).foldr EF.add (EF.fin 0)

theorem foldl_add_point {m n : ℕ} (i : Fin m) (j : Fin n) :
    ∀ (ms : List (Mat m n)) (z : Mat m n),
      (ms.foldl (rcaStep none) z) i j = EF.add (z i j) (sumCells ms i j)
  | [], z => (EF.addFinZero _).symm
  | A :: ms, z => by
    show (ms.foldl (rcaStep none) (rcaStep none z A)) i j = _
    rw [foldl_add_point i j ms]
    show EF.add (EF.add (z i j) (A i j)) (sumCells ms i j) = _
    rw [EF.addAssoc]
    rfl

theorem foldl_mul_point {m n : ℕ} (cut : ℚ) (i : Fin m) (j : Fin n) :
    ∀ (ms : List (Mat m n)) (z : Mat m n),
      (ms.foldl (rcaStep (some cut)) z) i j =
        ms.foldl
          (fun a A => a.mul (if EF.geQ (A i j) cut then EF.fin 1 else EF.fin 0))
          (z i j)
  | [], _ => rfl
  | A :: ms, z => by
    show (ms.foldl (rcaStep (some cut)) (rcaStep (some cut) z A)) i j = _
    rw [foldl_mul_point cut i j ms]
    rfl

theorem foldl_mul_from_zero {m n : ℕ} (cut : ℚ) (i : Fin m) (j : Fin n) :
    ∀ (ms : List (Mat m n)),
      ms.foldl
        (fun a A => a.mul (if EF.geQ (A i j) cut then EF.fin 1 else EF.fin 0))
        (EF.fin 0) = EF.fin 0
  | [] => rfl
  | A :: ms => by
    have h : EF.mul (EF.fin 0) (if EF.geQ (A i j) cut then EF.fin 1 else EF.fin 0) =
        EF.fin 0 := by
      split <;> decide
    show ms.foldl _ (EF.mul (EF.fin 0) _) = EF.fin 0
    rw [h]
    exact foldl_mul_from_zero cut i j ms

theorem foldl_mul_eq_all {m n : ℕ} (cut : ℚ) (i : Fin m) (j : Fin n) :
    ∀ (ms : List (Mat m n)),
      ms.foldl
        (fun a A => a.mul (if EF.geQ (A i j) cut then EF.fin 1 else EF.fin 0))
        (EF.fin 1)
      = if ms.all (fun A => EF.geQ (A i j) cut) then EF.fin 1 else EF.fin 0
  | [] => rfl
  | A :: ms => by
    by_cases h : EF.geQ (A i j) cut
    · show ms.foldl _ (EF.mul (EF.fin 1) _) = _
      rw [if_pos h]
      have h1 : EF.mul (EF.fin 1) (EF.fin 1) = EF.fin 1 := by decide
      rw [h1, foldl_mul_eq_all cut i j ms]
      simp [List.all_cons, h]
    · show ms.foldl _ (EF.mul (EF.fin 1) _) = _
      rw [if_neg h]
      have h1 : EF.mul (EF.fin 1) (EF.fin 0) = EF.fin 0 := by decide
      rw [h1, foldl_mul_from_zero cut i j ms]
      simp [List.all_cons, h]

/-- Characterization of the multi-year cutoff-mode `rca_matrix` fold: a
cell is 1.0 exactly when the raw RCA cell is ≥ cutoff in every present
year, else 0.0 (vacuously all-1.0 when no requested year is present). -/
theorem rca_matrix_cutoff_char {m n : ℕ} (ps : ProductSpace m n)
    (years : List ℕ) (cut : ℚ) (h : 1 < years.length) :
    rca_matrix ps years (some cut) = some (fun i j =>
      if (years.filterMap ps.rcasByYear).all (fun A => EF.geQ (A i j) cut)
      then EF.fin 1 else EF.fin 0) := by
  unfold rca_matrix
  rw [if_pos h]
  show some ((years.filterMap ps.rcasByYear).foldl (rcaStep (some cut)) (onesMat m n)) = _
  congr 1
  funext i j
  rw [foldl_mul_point]
  show (years.filterMap ps.rcasByYear).foldl _ (EF.fin 1) = _
  rw [foldl_mul_eq_all]

example : rca exA = exRca := by decide

example : fair_share exRca (some 1) =
    ![![EF.fin 0, EF.fin 1, EF.fin 1], ![EF.fin 1, EF.fin 1, EF.fin 0]] := by
  decide

/-- The `test_ps_interface` construction: one activity matrix, available
under the years 2017 and 2018 (two years, so that the multi-year paths are
exercised), with construction cutoff 1.0. -/
def mcpsEx : ℕ → Option (Mat 2 3) :=
  fun y => if y = 2017 ∨ y = 2018 then some exA else none

def psEx : ProductSpace 2 3 := ProductSpace.new mcpsEx (some 1)

example : psEx.rcasByYear 2017 = some (rca exA) := by decide

example : (rca_matrix psEx [2017, 2018] none).map (fun M => M 0 1) =
    some (EF.fin (mkRat 3 2)) := by decide

example : (rca_cutoff_matrix psEx [2017, 2018]).map (fun M => M 0 0) =
    some (EF.fin (mkRat 49 81)) := by decide

/-- Small matrix used to refute unconditional `fair_share` idempotence. -/
def oneCellThree : Mat 1 1 := fun _ _ => EF.fin 3

/-- C4 counterexample: with cutoff 2.0, one application of `fair_share`
sends the 3.0 cell to 1.0, but a second application sends that 1.0 to 0.0
(1.0 < 2.0), so `fair_share` is not idempotent for every cutoff. -/
theorem C4_counterexample :
    ¬ fair_share (fair_share oneCellThree (some 2)) (some 2) =
      fair_share oneCellThree (some 2) := by
  decide

/-- C4 (amended): `fair_share` is idempotent for every cutoff whose
effective value (the given cutoff, or the 1.0 default) lies in (0, 1]:
re-binarizing a {0,1} matrix leaves it unchanged because 1 ≥ cutoff and
¬(0 ≥ cutoff) both hold there. -/
theorem C4_fair_share_idempotent {m n : ℕ} (A : Mat m n) (cutoff : Option ℚ)
    (h0 : 0 < cutoff.getD 1) (h1 : cutoff.getD 1 ≤ 1) :
    fair_share (fair_share A cutoff) cutoff = fair_share A cutoff := by
  funext i j
  show (if EF.geQ (if EF.geQ (A i j) (cutoff.getD 1) then EF.fin 1 else EF.fin 0)
          (cutoff.getD 1) then EF.fin 1 else EF.fin 0)
    = (if EF.geQ (A i j) (cutoff.getD 1) then EF.fin 1 else EF.fin 0)
  by_cases hc : EF.geQ (A i j) (cutoff.getD 1)
  · rw [if_pos hc]
    have hone : EF.geQ (EF.fin 1) (cutoff.getD 1) = true := by
      simp only [EF.geQ, decide_eq_true_eq]
      exact h1
    rw [if_pos hone]
  · rw [if_neg hc]
    have hzero : ¬ EF.geQ (EF.fin 0) (cutoff.getD 1) = true := by
      simp only [EF.geQ, decide_eq_true_eq, not_le]
      exact h0
    rw [if_neg hzero]

/-- Witness for C4 (amended) at cutoff 1/2 on a concrete matrix. -/
theorem C4_fair_share_idempotent_witness :
    fair_share (fair_share exRca (some (mkRat 1 2))) (some (mkRat 1 2)) =
      fair_share exRca (some (mkRat 1 2)) :=
  C4_fair_share_idempotent exRca (some (mkRat 1 2)) (by decide) (by decide)

/-- C5: every cell of `rca(A)` is `(A[i,j] / b[i]) / (c[j] / d)` with `b`
the row totals, `c` the column totals and `d` the grand total; on the
concrete 2×3 activity matrix of the repository's test the cells are
exactly 7/9, 7/6, 1, 1, 35/33, 21/22 (in the column-major order the spec
lists them). -/
theorem C5_rca_formula :
    (∀ (m n : ℕ) (A : Mat m n) (i : Fin m) (j : Fin n),
      rca A i j = ((A i j).div (rowSum A i)).div ((colSum A j).div (total A)))
    ∧ rca exA = exRca :=
  ⟨fun _ _ _ _ _ => rfl, by decide⟩

/-- C6: the in-place RCA transform computes its row, column and grand
totals before the two mutation sweeps, so it leaves the matrix holding
exactly what the copying transform returns (the model is pure, so the
source matrix of `rca` is untouched by construction). -/
theorem C6_apply_rca_eq_rca (m n : ℕ) (A : Mat m n) : apply_rca A = rca A := rfl

/-- C1: the multi-year `rca_cutoff` query reads the RAW per-year RCA map
(`rcas_by_year`) and element-wise multiplies the raw values: on two copies
of the test matrix the (0,0) cell comes out as (7/9)² = 49/81, while both
construction-time cutoff matrices hold 0.0 there, so the claimed AND of
the cutoff matrices would give 0.0. -/
theorem C1_cutoff_query_multiplies_raw_rca :
    (rca_cutoff_matrix psEx [2017, 2018]).map (fun M => M 0 0) =
      some (EF.fin (mkRat 49 81))
    ∧ (psEx.rcasCutoffByYear 2017).map (fun M => M 0 0) = some (EF.fin 0)
    ∧ (psEx.rcasCutoffByYear 2018).map (fun M => M 0 0) = some (EF.fin 0)
    ∧ EF.fin (mkRat 49 81) ≠ EF.fin 0 := by
  refine ⟨by decide, by decide, by decide, by decide⟩

/-- C2: the multi-year average-mode accumulator starts from the all-1.0
matrix (it is shared with the cutoff branch), not from all-0.0: with two
present years whose RCA cell (0,1) is 1.0 each, the query returns
(1 + 1 + 1)/2 = 3/2 instead of the claimed (1 + 1)/2 = 1. -/
theorem C2_average_accumulator_starts_at_one :
    rca exA 0 1 = EF.fin 1
    ∧ (rca_matrix psEx [2017, 2018] none).map (fun M => M 0 1) =
        some (EF.fin (mkRat 3 2))
    ∧ ((EF.add (EF.fin 0) (EF.add (EF.fin 1) (EF.fin 1))).div (EF.fin 2) = EF.fin 1)
    ∧ EF.fin (mkRat 3 2) ≠ EF.fin 1 := by
  refine ⟨by decide, by decide, by decide, by decide⟩

/-- C3: in cutoff mode with more than one requested year, the result cell
is 1.0 exactly when the raw RCA cell is ≥ cutoff for every requested year
present in the per-year map (`EF.geQ` makes a NaN cell fail the
comparison), else 0.0; with no present year the all-1.0 accumulator is
returned unchanged. -/
theorem C3_cutoff_mode_is_all_years_and {m n : ℕ} (ps : ProductSpace m n)
    (years : List ℕ) (cut : ℚ) (h : 1 < years.length) :
    rca_matrix ps years (some cut) = some (fun i j =>
      if (years.filterMap ps.rcasByYear).all (fun A => EF.geQ (A i j) cut)
      then EF.fin 1 else EF.fin 0) :=
  rca_matrix_cutoff_char ps years cut h

/-- Witness for C3 on the two-year example space with cutoff 1.0. -/
theorem C3_cutoff_mode_is_all_years_and_witness :
    rca_matrix psEx [2017, 2018] (some 1) = some (fun i j =>
      if ([2017, 2018].filterMap psEx.rcasByYear).all (fun A => EF.geQ (A i j) 1)
      then EF.fin 1 else EF.fin 0) :=
  C3_cutoff_mode_is_all_years_and psEx [2017, 2018] 1 (by decide)

/-- C10: prepending a further occurrence of an already-present,
already-requested year to the years list changes the average-mode result
(its matrix is added once more while the divisor grows to the full list
length, duplicates included) and leaves the cutoff-mode result unchanged:
the aggregator folds over occurrences, never over distinct years. -/
theorem C10_no_deduplication {m n : ℕ} (ps : ProductSpace m n) (y : ℕ)
    (A : Mat m n) (years : List ℕ) (cut : ℚ)
    (hlen : 1 < years.length) (hy : y ∈ years)
    (hA : ps.rcasByYear y = some A) :
    rca_matrix ps (y :: years) none = some (fun i j =>
      (EF.add (EF.fin 1)
        (EF.add (A i j) (sumCells (years.filterMap ps.rcasByYear) i j))).div
        (EF.fin ((years.length + 1 : ℕ) : ℚ)))
    ∧ rca_matrix ps (y :: years) (some cut) = rca_matrix ps years (some cut) := by
  have hlen' : 1 < (y :: years).length := by
    simp only [List.length_cons]
    omega
  have hfm : (y :: years).filterMap ps.rcasByYear =
      A :: years.filterMap ps.rcasByYear := by
    simp [List.filterMap_cons, hA]
  constructor
  · unfold rca_matrix
    rw [if_pos hlen']
    show some (fun i j =>
        ((((y :: years).filterMap ps.rcasByYear).foldl (rcaStep none)
          (onesMat m n)) i j).div (EF.fin (y :: years).length)) = _
    congr 1
    funext i j
    rw [hfm, foldl_add_point]
    rfl
  · rw [rca_matrix_cutoff_char ps (y :: years) cut hlen',
      rca_matrix_cutoff_char ps years cut hlen]
    have hmem : A ∈ years.filterMap ps.rcasByYear :=
      List.mem_filterMap.mpr ⟨y, hy, hA⟩
    congr 1
    funext i j
    rw [hfm, List.all_cons]
    cases hall : (years.filterMap ps.rcasByYear).all fun B => EF.geQ (B i j) cut with
    | false => simp [hall]
    | true =>
      have hAok : EF.geQ (A i j) cut = true := (List.all_eq_true.mp hall) A hmem
      simp [hall, hAok]

/-- Witness for C10: a duplicated present year on the two-year example. -/
theorem C10_no_deduplication_witness :
    rca_matrix psEx [2017, 2017, 2018] none = some (fun i j =>
      (EF.add (EF.fin 1)
        (EF.add (rca exA i j)
          (sumCells ([2017, 2018].filterMap psEx.rcasByYear) i j))).div
        (EF.fin (([2017, 2018].length + 1 : ℕ) : ℚ)))
    ∧ rca_matrix psEx [2017, 2017, 2018] (some 1) =
      rca_matrix psEx [2017, 2018] (some 1) :=
  C10_no_deduplication psEx 2017 (rca exA) [2017, 2018] 1 (by decide) (by decide)
    (by decide)

/-- C7: (1) whatever matrix the proximity derivation yields per year,
`ProductSpace::new` stores it NaN-cleaned, so no stored per-year proximity
cell is NaN; (2) the multi-year proximity query is the plain
`smooth::avg` of the stored matrices — no NaN cleanup is reapplied at
query time. -/
theorem C7_proximity_nan_cleanup :
    (∀ (m n : ℕ) (mcps : ℕ → Option (Mat m n)) (cut : Option ℚ) (y : ℕ)
        (P : Mat n n) (p q : Fin n),
      (ProductSpace.new mcps cut).proximitiesByYear y = some P →
      (P p q).isNan = false)
    ∧ (∀ (m n : ℕ) (ps : ProductSpace m n) (years : List ℕ),
        1 < years.length →
        proximity_matrix ps years =
          some (smooth_avg (years.filterMap ps.proximitiesByYear)
            years.length)) := by
  constructor
  · intro m n mcps cut y P p q h
    have h' : (mcps y).map
        (fun A => cleanNaN (proximity (apply_fair_share (rca A) cut)))
        = some P := h
    obtain ⟨A, _, hP⟩ := Option.map_eq_some'.mp h'
    rw [← hP]
    show (cleanNaN (proximity (apply_fair_share (rca A) cut)) p q).isNan = false
    unfold cleanNaN
    cases proximity (apply_fair_share (rca A) cut) p q <;> rfl
  · intro m n ps years h
    unfold proximity_matrix
    rw [if_pos h]

/-- The stored proximity matrix of the example space for either year. -/
def proxEx : Mat 3 3 := cleanNaN (proximity (apply_fair_share (rca exA) (some 1)))

/-- Witness for C7 on the example space. -/
theorem C7_proximity_nan_cleanup_witness :
    (proxEx 0 0).isNan = false
    ∧ proximity_matrix psEx [2017, 2018] =
        some (smooth_avg ([2017, 2018].filterMap psEx.proximitiesByYear)
          [2017, 2018].length) :=
  ⟨C7_proximity_nan_cleanup.1 2 3 mcpsEx (some 1) 2017 proxEx 0 0 (by decide),
   C7_proximity_nan_cleanup.2 2 3 psEx [2017, 2018] (by decide)⟩

/-- C8: the density query fails exactly when the RCA selection or the
proximity selection for the requested years fails, and on success it
returns the density derived from exactly those two selected matrices. -/
theorem C8_density_fails_iff_selection_fails {m n : ℕ} (ps : ProductSpace m n)
    (years : List ℕ) (cutoff : Option ℚ) :
    (density_matrix ps years cutoff = none ↔
      rca_matrix ps years cutoff = none ∨ proximity_matrix ps years = none)
    ∧ ∀ R P, rca_matrix ps years cutoff = some R →
        proximity_matrix ps years = some P →
        density_matrix ps years cutoff = some (density R P) := by
  constructor
  · cases h1 : rca_matrix ps years cutoff <;>
      cases h2 : proximity_matrix ps years <;>
      simp [density_matrix, h1, h2]
  · intro R P h1 h2
    simp [density_matrix, h1, h2]

/-- Witness for C8: an empty request fails; a present single year returns
the density of the selected RCA and proximity matrices. -/
theorem C8_density_fails_iff_selection_fails_witness :
    density_matrix psEx ([] : List ℕ) none = none
    ∧ density_matrix psEx [2017] none = some (density (rca exA) proxEx) :=
  ⟨(C8_density_fails_iff_selection_fails psEx [] none).1.mpr (Or.inl (by decide)),
   (C8_density_fails_iff_selection_fails psEx [2017] none).2 (rca exA) proxEx
     (by decide) (by decide)⟩

/-- A dense matrix as explicit rows, used to make nalgebra's run-time
shape requirements visible. -/
abbrev LMat : Type := List (List EF)

/-- The matrix has exactly `nr` rows of exactly `nc` cells each. -/
def lmatWF (A : LMat) (nr nc : ℕ) : Prop :=
  A.length = nr ∧ ∀ row ∈ A, row.length = nc

instance lmatWFDec (A : LMat) (nr nc : ℕ) : Decidable (lmatWF A nr nc) := by
  unfold lmatWF
  infer_instance

/-- Element-wise combination of two rows. -/
def zipRow (f : EF → EF → EF) (r1 r2 : List EF) : List EF :=
  (r1.zip r2).map fun p => f p.1 p.2

/-- Element-wise combination of two matrices, with nalgebra's shape check
made explicit: mismatched shapes are the failure branch (a panic in
`component_mul_assign` / `+=`). -/
def zipCells (f : EF → EF → EF) (A B : LMat) : Option LMat :=
  if A.length = B.length ∧ ∀ p ∈ A.zip B, p.1.length = p.2.length then
    some ((A.zip B).map fun p => zipRow f p.1 p.2)
  else none

/-- Function `fair_share` on a row-list matrix. -/
def fairShareRowL (row : List EF) (cut : ℚ) : List EF :=
  row.map fun x => if EF.geQ x cut then EF.fin 1 else EF.fin 0

/-- Function `apply_fair_share` on a row-list matrix. -/
def fairShareL (A : LMat) (cutoff : Option ℚ) : LMat :=
  A.map fun row => fairShareRowL row (cutoff.getD 1)

/-- The accumulator `DMatrix::from_element(country_idx.len(),
product_idx.len(), 1.0)` as a row-list matrix of the index map sizes. -/
def onesL (nr nc : ℕ) : LMat :=
  List.replicate nr (List.replicate nc (EF.fin 1))

/-- One fold step of the multi-year `rca_matrix` aggregation over checked
matrices: fused fair-share-into (element-wise product) with a cutoff,
element-wise sum otherwise; a shape mismatch anywhere poisons the fold. -/
def checkedStep (cutoff : Option ℚ) (z? : Option LMat) (A : LMat) : Option LMat :=
  z?.bind fun z =>
    if cutoff.isSome then zipCells EF.mul z (fairShareL A cutoff)
    else zipCells EF.add z A

/-- The multi-year fold of `rca_matrix` over the present years' matrices,
with the accumulator built at dimensions `country_idx.len()` ×
`product_idx.len()` and every element-wise operation shape-checked. -/
def rcaFoldChecked (ms : List LMat) (cutoff : Option ℚ) (nr nc : ℕ) :
    Option LMat :=
  ms.foldl (checkedStep cutoff) (some (onesL nr nc))

theorem zipCells_wf (f : EF → EF → EF) {A B : LMat} {nr nc : ℕ}
    (hA : lmatWF A nr nc) (hB : lmatWF B nr nc) :
    ∃ Z, zipCells f A B = some Z ∧ lmatWF Z nr nc := by
  have hlen : A.length = B.length := hA.1.trans hB.1.symm
  have hrows : ∀ p ∈ A.zip B, p.1.length = p.2.length := by
    intro p hp
    rcases p with ⟨r1, r2⟩
    obtain ⟨h1, h2⟩ := List.of_mem_zip hp
    rw [hA.2 _ h1, hB.2 _ h2]
  refine ⟨(A.zip B).map fun p => zipRow f p.1 p.2, ?_, ?_, ?_⟩
  · rw [zipCells, if_pos ⟨hlen, hrows⟩]
  · simp [List.length_zip, hA.1, hB.1]
  · intro row hrow
    obtain ⟨p, hp, hr⟩ := List.mem_map.mp hrow
    rcases p with ⟨r1, r2⟩
    obtain ⟨h1, h2⟩ := List.of_mem_zip hp
    rw [← hr]
    simp [zipRow, List.length_zip, hA.2 _ h1, hB.2 _ h2]

theorem fairShareL_wf {A : LMat} {nr nc : ℕ} (cutoff : Option ℚ)
    (hA : lmatWF A nr nc) : lmatWF (fairShareL A cutoff) nr nc := by
  constructor
  · simp [fairShareL, hA.1]
  · intro row hrow
    obtain ⟨r, hr, hmap⟩ := List.mem_map.mp hrow
    rw [← hmap]
    simp [fairShareRowL, hA.2 _ hr]

theorem onesL_wf (nr nc : ℕ) : lmatWF (onesL nr nc) nr nc := by
  constructor
  · simp [onesL]
  · intro row hrow
    rw [(List.eq_of_mem_replicate hrow : row = List.replicate nc (EF.fin 1))]
    simp

theorem foldChecked_aux (cutoff : Option ℚ) (nr nc : ℕ) :
    ∀ (ms : List LMat) (z : LMat), lmatWF z nr nc →
      (∀ A ∈ ms, lmatWF A nr nc) →
      ∃ Z, ms.foldl (checkedStep cutoff) (some z) = some Z ∧ lmatWF Z nr nc
  | [], z, hz, _ => ⟨z, rfl, hz⟩
  | A :: ms, z, hz, hms => by
    have hA := hms A (List.mem_cons_self _ _)
    have hstep : ∃ z', checkedStep cutoff (some z) A = some z' ∧ lmatWF z' nr nc := by
      by_cases hc : cutoff.isSome
      · have := zipCells_wf EF.mul hz (fairShareL_wf cutoff hA)
        simpa [checkedStep, hc] using this
      · have := zipCells_wf EF.add hz hA
        simpa [checkedStep, hc] using this
    obtain ⟨z', hz', hwf⟩ := hstep
    have hrest := foldChecked_aux cutoff nr nc ms z' hwf
      (fun B hB => hms B (List.mem_cons_of_mem _ hB))
    obtain ⟨Z, hZ, hZwf⟩ := hrest
    refine ⟨Z, ?_, hZwf⟩
    rw [List.foldl_cons, hz', hZ]

/-- C9: under the precondition that every per-year matrix entering the
multi-year fold has the accumulator's dimensions (`country_idx.len()` ×
`product_idx.len()` — the shape invariant `ProductSpace::new` relies on
without validating), every element-wise sum and product in the fold is
defined on all cells and the shape-mismatch failure branch is never
taken. -/
theorem C9_fold_mismatch_unreachable (nr nc : ℕ) (ms : List LMat)
    (cutoff : Option ℚ) (h : ∀ A ∈ ms, lmatWF A nr nc) :
    (rcaFoldChecked ms cutoff nr nc).isSome = true := by
  obtain ⟨Z, hZ, _⟩ := foldChecked_aux cutoff nr nc ms (onesL nr nc) (onesL_wf nr nc) h
  show (ms.foldl (checkedStep cutoff) (some (onesL nr nc))).isSome = true
  rw [hZ]
  rfl

/-- The example activity matrix as a row-list matrix. -/
def lmEx : LMat :=
  [[EF.fin 1, EF.fin 3, EF.fin 5], [EF.fin 2, EF.fin 4, EF.fin 6]]

/-- Witness for C9: a two-year fold of 2×3 matrices succeeds in both
aggregation modes. -/
theorem C9_fold_mismatch_unreachable_witness :
    (rcaFoldChecked [lmEx, lmEx] none 2 3).isSome = true
    ∧ (rcaFoldChecked [lmEx, lmEx] (some 1) 2 3).isSome = true :=
  ⟨C9_fold_mismatch_unreachable 2 3 [lmEx, lmEx] none (by decide),
   C9_fold_mismatch_unreachable 2 3 [lmEx, lmEx] (some 1) (by decide)⟩
